import Mathlib

/-!
Verification of the Orphic static analyzer (`orphic.py`): a shallow embedding of
its core — the comment stripper, the function-definition and function-call
regex matchers, per-file scanning, aggregation over paths, and the
unused/undefined cross-referencing — together with theorems settling the
specification claims.

Text is modelled as `List Char`.  The two regular expressions
(`FUNC_DEF_REGEX`, `FUNC_CALL_REGEX`) are embedded as explicit scanners that
mirror Python `re` left-to-right backtracking semantics on exactly these
patterns.  Greedy sub-expressions whose every shorter (backtracked) choice
necessarily fails the following mandatory element are implemented by maximal
munch, which is observationally equivalent; the only genuine backtracking in
these patterns — the iteration count of the return-type clause
`(?:[a-zA-Z_]\w*\s+)+` and the split point of `[^;]*\)` — is implemented as an
explicit search in the same (greedy, descending) order the engine uses.
Character classes are modelled over the ASCII range (`\w` = `[A-Za-z0-9_]`
exactly as the explicit classes in the patterns, `\s` = ASCII whitespace).

Recursions that are not structural in the text (they skip over a matched span)
take an explicit fuel argument; every step consumes at least one character, so
fuel equal to the length of the text always suffices, and the wrappers pass
exactly that.
-/

/-- The opening-brace character (written by code point throughout). -/
def lbrace : Char := Char.ofNat 123

/-- `[a-zA-Z0-9_]`, the word characters of the patterns (and of `\b`). -/
def isWordChar (c : Char) : Bool := c.isAlpha || c.isDigit || c == '_'

/-- `[a-zA-Z_]`, a character that can start an identifier. -/
def isIdentStart (c : Char) : Bool := c.isAlpha || c == '_'

/-- `\s` (ASCII whitespace). -/
def isSpace (c : Char) : Bool :=
  c == ' ' || c == '\t' || c == '\n' || c == '\r' || c == '\x0b' || c == '\x0c'

/-- Length of the maximal `\s*` prefix. -/
def countWs (l : List Char) : Nat := (l.takeWhile isSpace).length

/-- Length of the maximal `[a-zA-Z_][a-zA-Z0-9_]*` prefix (0 if none). -/
def identLen : List Char → Nat
  | [] => 0
  | c :: r => if isIdentStart c then 1 + (r.takeWhile isWordChar).length else 0

/-- Number of newline characters in `l` (Python `str.count`). -/
def countNl (l : List Char) : Nat := (l.filter (fun c => c == '\n')).length

/-- Whether two given characters occur adjacently (in this order) in `l`. -/
def occurs2 (a b : Char) : List Char → Bool
  | x :: rest => (x == a && rest.head? == some b) || occurs2 a b rest
  | [] => false

/-! ## Comment Stripper (`remove_comments`, orphic.py lines 39-47)

`re.sub(r'/\*.*?\*/', '', text, flags=re.DOTALL)` removes, scanning left to
right, each `/*` together with everything up to and including the first
following `*/`; an opener with no following closer matches nothing and is left
in place.  `re.sub(r'//.*', '', text)` then removes each `//` and the rest of
its line (`.` does not match a newline). -/

/-- After a `/*`, the suffix following the first `*/` (non-greedy `.*?\*/`),
if any. -/
def dropToClose : List Char → Option (List Char)
  | [] => none
  | c :: rest =>
    if c = '*' ∧ rest.head? = some '/' then some rest.tail else dropToClose rest

/-- Block-comment pass with fuel (structural; see module docstring). -/
def blockStripF : Nat → List Char → List Char
  | _, [] => []
  | 0, l => l
  | fuel + 1, c :: rest =>
    if c = '/' ∧ rest.head? = some '*' then
      match dropToClose rest.tail with
      | some rest' => blockStripF fuel rest'
      | none => c :: blockStripF fuel rest
    else c :: blockStripF fuel rest

/-- `re.sub(r'/\*.*?\*/', '', text, flags=re.DOTALL)`. -/
def blockStrip (l : List Char) : List Char := blockStripF l.length l

/-- The suffix of `l` starting at its first newline (what scanning resumes at
after a `//...` match), or `[]` if there is none. -/
def skipToNl : List Char → List Char
  | [] => []
  | c :: rest => if c = '\n' then c :: rest else skipToNl rest

/-- Line-comment pass with fuel. -/
def lineStripF : Nat → List Char → List Char
  | _, [] => []
  | 0, l => l
  | fuel + 1, c :: rest =>
    if c = '/' ∧ rest.head? = some '/' then lineStripF fuel (skipToNl rest.tail)
    else c :: lineStripF fuel rest

/-- `re.sub(r'//.*', '', text)`. -/
def lineStrip (l : List Char) : List Char := lineStripF l.length l

/-- `remove_comments`: block comments removed first, then line comments. -/
def remove_comments (text : List Char) : List Char := lineStrip (blockStrip text)

/-! ## Definition Matcher (`FUNC_DEF_REGEX`, orphic.py lines 17-27)

The pattern, in multiline mode, anchored at a line start:
`^\s*(?!if\b|while\b|for\b|switch\b|return\b|sizeof\b|case\b|default\b|else\s+if\b)`
`(?:(?:[a-zA-Z_][a-zA-Z0-9_]*\s+)+\**)([a-zA-Z_][a-zA-Z0-9_]*)\s*\([^;]*\)\s*(?=\{)`.

`\s*` must reach the first non-whitespace character (any shorter choice puts
the mandatory identifier start on a whitespace character), where the negative
keyword lookahead is evaluated.  The return-type clause iterates complete
`identifier whitespace+` groups with maximal munch; only its iteration count
backtracks, tried from the greedy maximum downwards.  After `\(`, the engine
places `\)` at the rightmost `)` inside the maximal `;`-free run such that
optional whitespace and then `{` follow, tried right to left. -/

/-- `w\b` at the start of `l`: `w` is a prefix and the next character (if any)
is not a word character. -/
def kwAt (w : List Char) (l : List Char) : Bool :=
  w.isPrefixOf l &&
    (match l.drop w.length with
     | [] => true
     | c :: _ => !isWordChar c)

/-- The `else\s+if\b` alternative of the lookahead. -/
def elseIfAt (l : List Char) : Bool :=
  "else".data.isPrefixOf l &&
    (let r := l.drop 4
     let w := countWs r
     decide (1 ≤ w) && kwAt "if".data (r.drop w))

/-- The negative lookahead
`(?!if\b|while\b|for\b|switch\b|return\b|sizeof\b|case\b|default\b|else\s+if\b)`
(true iff some alternative matches, i.e. the lookahead FAILS). -/
def kwLookahead (l : List Char) : Bool :=
  kwAt "if".data l || kwAt "while".data l || kwAt "for".data l ||
  kwAt "switch".data l || kwAt "return".data l || kwAt "sizeof".data l ||
  kwAt "case".data l || kwAt "default".data l || elseIfAt l

/-- One complete `[a-zA-Z_][a-zA-Z0-9_]*\s+` group: its length, or `none` if
the text here does not begin with identifier-then-whitespace. -/
def iterLen (l : List Char) : Option Nat :=
  let n := identLen l
  if n = 0 then none
  else
    let w := countWs (l.drop n)
    if w = 0 then none else some (n + w)

/-- Cumulative end offsets of 1, 2, 3, ... complete return-type groups
(fuelled; each group is at least two characters long). -/
def iterOffsetsF : Nat → List Char → Nat → List Nat
  | 0, _, _ => []
  | fuel + 1, l, acc =>
    match iterLen l with
    | none => []
    | some s => (acc + s) :: iterOffsetsF fuel (l.drop s) (acc + s)

/-- End offsets of all possible `(?:[a-zA-Z_][a-zA-Z0-9_]*\s+)+` matches, in
ascending order. -/
def iterOffsets (l : List Char) : List Nat := iterOffsetsF l.length l 0

/-- Indices (from `i`) of the `)` characters in `l`. -/
def parenPositionsAux : List Char → Nat → List Nat
  | [], _ => []
  | c :: r, i =>
    if c == ')' then i :: parenPositionsAux r (i + 1) else parenPositionsAux r (i + 1)

/-- Candidate split points for `[^;]*\)`: positions of `)` within the maximal
`;`-free prefix, rightmost first (the engine's backtracking order). -/
def parenCandidates (l : List Char) : List Nat :=
  (parenPositionsAux (l.takeWhile (fun c => c != ';')) 0).reverse

/-- Matches `[^;]*\)\s*(?=\{)` against `l` (the text just after `\(`):
returns the number of characters consumed (ending just before the `{`). -/
def paramSearch (l : List Char) : Option Nat :=
  (parenCandidates l).findSome? (fun j =>
    let a := l.drop (j + 1)
    let w := countWs a
    match (a.drop w).head? with
    | some c => if c == lbrace then some (j + 1 + w) else none
    | none => none)

/-- The tail of the definition pattern after `o` return-type groups:
`\**([a-zA-Z_][a-zA-Z0-9_]*)\s*\([^;]*\)\s*(?=\{)`.  Returns
`(nameStart, nameLen, matchEnd)` as offsets into `l`, the whole attempt text. -/
def tryTail (l : List Char) (wsN : Nat) (o : Nat) : Option (Nat × Nat × Nat) :=
  let l2 := (l.drop wsN).drop o
  let s := (l2.takeWhile (fun c => c == '*')).length
  let l3 := l2.drop s
  let m := identLen l3
  if m = 0 then none
  else
    let l5 := l3.drop m
    let w5 := countWs l5
    match (l5.drop w5).head? with
    | some c =>
      if c == '(' then
        match paramSearch (l5.drop (w5 + 1)) with
        | some e6 => some (wsN + o + s, m, wsN + o + s + m + w5 + 1 + e6)
        | none => none
      else none
    | none => none

/-- One attempt of `FUNC_DEF_REGEX` with `l` the text from a line start (the
scanner only attempts at positions where `(?m)^` holds).  Returns
`(nameStart, nameLen, matchEnd)` offsets into `l`. -/
def tryDefMatch (l : List Char) : Option (Nat × Nat × Nat) :=
  let wsN := countWs l
  if kwLookahead (l.drop wsN) then none
  else (iterOffsets (l.drop wsN)).reverse.findSome? (fun o => tryTail l wsN o)

/-- One match of the definition pattern: the captured name, the offsets of the
whole match (which includes the leading `\s*`), of the captured name, and of
the match end (just before the `{`). -/
structure DefMatch where
  name : List Char
  matchStart : Nat
  nameStart : Nat
  matchEnd : Nat
deriving DecidableEq

/-- Whether the character just before offset `e` of `l` is a newline (whether
`(?m)^` holds right after a match of length `e`). -/
def nlBefore (l : List Char) (e : Nat) : Bool := (l.drop (e - 1)).head? == some '\n'

/-- The `finditer`/`sub` scan of `FUNC_DEF_REGEX`: attempt a match at every
line start; on success record it and resume at the match end, otherwise
advance one character.  Returns the matches and the residual text with the
matched spans removed (`FUNC_DEF_REGEX.sub("", ...)`). -/
def scanDefsF : Nat → List Char → Nat → Bool → List DefMatch × List Char
  | _, [], _, _ => ([], [])
  | 0, l, _, _ => ([], l)
  | fuel + 1, c :: rest, pos, lineStart =>
    if lineStart then
      match tryDefMatch (c :: rest) with
      | some (ns, nm, e) =>
        let r := scanDefsF fuel ((c :: rest).drop e) (pos + e) (nlBefore (c :: rest) e)
        (⟨((c :: rest).drop ns).take nm, pos, pos + ns, pos + e⟩ :: r.1, r.2)
      | none =>
        let r := scanDefsF fuel rest (pos + 1) (c == '\n')
        (r.1, c :: r.2)
    else
      let r := scanDefsF fuel rest (pos + 1) (c == '\n')
      (r.1, c :: r.2)

/-- All matches of `FUNC_DEF_REGEX` in `t`. -/
def scanDefs (t : List Char) : List DefMatch := (scanDefsF t.length t 0 true).1

/-- `FUNC_DEF_REGEX.sub("", t)`: `t` with all definition signatures excised. -/
def defExcised (t : List Char) : List Char := (scanDefsF t.length t 0 true).2

/-! ## Call Matcher (`FUNC_CALL_REGEX`, orphic.py lines 30-33)

`\b(?!(?:main|auto|...|double)\b)([a-zA-Z_][a-zA-Z0-9_]*)\s*\(`: an identifier
starting at a word boundary, not one of the excluded words (word-boundary
checked), followed by optional whitespace and `(`.  Inside the negative
lookahead only whether SOME alternative matches is observable, so the set's
arbitrary iteration order in `"|".join(EXCLUDED_FUNCTIONS)` is irrelevant. -/

/-- `EXCLUDED_FUNCTIONS` (orphic.py lines 7-12): C reserved words plus `main`. -/
def EXCLUDED_FUNCTIONS : List String :=
  ["main", "auto", "else", "long", "switch", "break", "enum", "register", "typedef",
   "case", "extern", "return", "union", "char", "float", "short", "unsigned",
   "const", "for", "signed", "void", "continue", "goto", "sizeof", "volatile",
   "default", "if", "static", "while", "do", "int", "struct", "_Packed", "double"]

/-- `EXCLUDED_FUNCTIONS` as a set (Python's `set`). -/
def EXCLUDED_SET : Finset String := EXCLUDED_FUNCTIONS.toFinset

/-- `(?:main|auto|...|double)\b` at the start of `l`. -/
def excludedAt (l : List Char) : Bool :=
  EXCLUDED_FUNCTIONS.any (fun w => kwAt w.data l)

/-- `[a-zA-Z_][a-zA-Z0-9_]*\s*\(` at the start of `l`. -/
def parenAfterIdent (l : List Char) : Bool :=
  let n := identLen l
  let w := countWs (l.drop n)
  (l.drop (n + w)).head? == some '('

/-- The `findall` scan of `FUNC_CALL_REGEX`: `prevW` records whether the
previous character is a word character (for `\b`).  On a match the captured
identifier is emitted and scanning resumes after the `(`; otherwise the scan
advances one character. -/
def callScanF : Nat → List Char → Bool → List (List Char)
  | _, [], _ => []
  | 0, _, _ => []
  | fuel + 1, c :: rest, prevW =>
    if !prevW && isIdentStart c && !excludedAt (c :: rest)
        && parenAfterIdent (c :: rest) then
      let n := identLen (c :: rest)
      let w := countWs ((c :: rest).drop n)
      (c :: rest).take n :: callScanF fuel ((c :: rest).drop (n + w + 1)) false
    else callScanF fuel rest (isWordChar c)

/-- All captures of `FUNC_CALL_REGEX` in `l`, in order. -/
def callScan (l : List Char) : List (List Char) := callScanF l.length l false

/-! ## File Scanner (orphic.py lines 49-95)

A file's content is modelled as `Option (List Char)`: `none` is a read that
raised (the `except` branch prints the error and returns empty results). -/

/-- `find_function_definitions_in_file` on content already read:
comment stripping, then the definition scan; line numbers count newlines in
the STRIPPED text before the match start. -/
def find_function_definitions_in_content (filepath : String) (content : List Char) :
    List (String × Nat × String) :=
  let cleaned := remove_comments content
  (scanDefs cleaned).map (fun mt =>
    (String.mk mt.name, countNl (cleaned.take mt.matchStart) + 1, filepath))

/-- `find_function_definitions_in_file`: empty on read failure. -/
def find_function_definitions_in_file (filepath : String)
    (content : Option (List Char)) : List (String × Nat × String) :=
  match content with
  | none => []
  | some c => find_function_definitions_in_content filepath c

/-- `find_function_calls_in_file` on content already read: comments removed,
then definition signatures excised, then the call scan, collected as a set. -/
def find_function_calls_in_content (content : List Char) : Finset String :=
  ((callScan (defExcised (remove_comments content))).map String.mk).toFinset

/-- `find_function_calls_in_file`: empty on read failure. -/
def find_function_calls_in_file (content : Option (List Char)) : Finset String :=
  match content with
  | none => ∅
  | some c => find_function_calls_in_content c

/-! ## Tree Collector (`scan_path` / `scan_inputs`, orphic.py lines 97-155)

`definitions` is a Python dict mapping a name to its location list, modelled
as an association list in insertion order; `calls` is a set. -/

/-- A definitions table: name → list of (filepath, line). -/
abbrev Defs := List (String × List (String × Nat))

/-- Dict lookup (`definitions[name]`), defaulting to `[]`. -/
def lookupDefs : Defs → String → List (String × Nat)
  | [], _ => []
  | p :: rest, n => if p.1 == n then p.2 else lookupDefs rest n

/-- `d.setdefault(k, []).extend(v)`: extend `k`'s list, inserting the key at
the end if absent. -/
def dictExtend (d : Defs) (k : String) (v : List (String × Nat)) : Defs :=
  if d.any (fun p => p.1 == k) then
    d.map (fun p => if p.1 == k then (p.1, p.2 ++ v) else p)
  else d ++ [(k, v)]

/-- The concatenated location contribution of all entries of `d` whose key is
`n` (used to state what aggregation produces). -/
def contribLocs : Defs → String → List (String × Nat)
  | [], _ => []
  | p :: rest, n => (if p.1 == n then p.2 else []) ++ contribLocs rest n

/-- A filesystem entry: a directory (with the files `os.walk` would yield, in
walk order, as (filepath, content) pairs), a regular file, or anything else. -/
inductive FSEntry where
  | dir (files : List (String × Option (List Char)))
  | file (content : Option (List Char))
  | other

/-- Python `str.endswith`, over the character list. -/
def strEndsWith (s : String) (suf : String) : Bool := suf.data.isSuffixOf s.data

/-- The per-file loop shared by both branches of `scan_path`: for each file
with a recognized extension, append each found definition's location under its
name and union in its calls. -/
def scan_files (files : List (String × Option (List Char))) : Defs × Finset String :=
  files.foldl (fun acc fc =>
    if strEndsWith fc.1 ".c" || strEndsWith fc.1 ".h" then
      ((find_function_definitions_in_file fc.1 fc.2).foldl
         (fun d r => dictExtend d r.1 [(r.2.2, r.2.1)]) acc.1,
       acc.2 ∪ find_function_calls_in_file fc.2)
    else acc) ([], ∅)

/-- `scan_path`: a directory scans its walked files; a file with a recognized
extension scans itself; anything else contributes nothing (a diagnostic is
printed, outside the model). -/
def scan_path (fs : String → FSEntry) (path : String) : Defs × Finset String :=
  match fs path with
  | .dir files => scan_files files
  | .file content =>
    if strEndsWith path ".c" || strEndsWith path ".h" then scan_files [(path, content)]
    else ([], ∅)
  | .other => ([], ∅)

/-- `scan_inputs`: scan each path and merge — location lists extended under
each name, call sets unioned. -/
def scan_inputs (fs : String → FSEntry) (paths : List String) : Defs × Finset String :=
  paths.foldl (fun acc path =>
    ((scan_path fs path).1.foldl (fun a p => dictExtend a p.1 p.2) acc.1,
     acc.2 ∪ (scan_path fs path).2)) ([], ∅)

/-! ## Cross-Referencer (`main`, orphic.py lines 211-214 and 228) -/

/-- The unused-function table (orphic.py lines 211-214): the definitions whose
name is neither in `calls` nor in `EXCLUDED_FUNCTIONS`, with their locations. -/
def computeUnused (definitions : Defs) (calls : Finset String) : Defs :=
  definitions.filter (fun p => decide (p.1 ∉ calls) && decide (p.1 ∉ EXCLUDED_SET))

/-- The keys of a definitions table, as a set. -/
def defKeys (d : Defs) : Finset String := (d.map Prod.fst).toFinset

/-- The undefined-function set (orphic.py line 228):
`calls - set(definitions.keys()) - EXCLUDED_FUNCTIONS`. -/
def computeUndefined (definitions : Defs) (calls : Finset String) : Finset String :=
  (calls \ defKeys definitions) \ EXCLUDED_SET

/-! ## Claim-side notions

Predicates used only to STATE claims (line of an occurrence, "identifier
followed by `(`" occurrences), phrased from the specification's words. -/

/-- The offset of the start of the line containing offset `p` of `t`. -/
def lineStartOf (t : List Char) (p : Nat) : Nat :=
  p - ((t.take p).reverse.takeWhile (fun c => c != '\n')).length

/-- The 1-based line number of offset `p` in `t`. -/
def lineNumberOf (t : List Char) (p : Nat) : Nat := countNl (t.take p) + 1

/-- Whether the leading token of the line containing offset `p` is one of the
control keywords of the definition pattern's exclusion (the line's leading
whitespace skipped, the keyword checked at a word boundary). -/
def lineLeadingKw (t : List Char) (p : Nat) : Bool :=
  let ln := t.drop (lineStartOf t p)
  kwLookahead (ln.drop (countWs ln))

/-- An occurrence, anywhere in the text, of an identifier (starting at a word
boundary) followed by optional whitespace and `(` — the spec's
"identifier-followed-by-`(` occurrence". -/
def hasCallShapeAux : List Char → Bool → Bool
  | [], _ => false
  | c :: rest, prevW =>
    (!prevW && isIdentStart c && parenAfterIdent (c :: rest))
      || hasCallShapeAux rest (isWordChar c)

/-- `hasCallShapeAux` from the start of the text. -/
def hasCallShape (l : List Char) : Bool := hasCallShapeAux l false

/-! ## Concrete fixtures for the scenario parts of the claims -/

/-- A header holding only a prototype (spec §8, Scenario 4). -/
def protoFile : String × Option (List Char) :=
  ("proto.h", some ("int forward_decl(void);\n".data))

/-- A source file whose `main` calls the never-defined `forward_decl`. -/
def mainFile : String × Option (List Char) :=
  ("main.c", some ("int main(void) \x7b forward_decl(); \x7d\n".data))

/-- A filesystem with one directory `src` holding the two files above. -/
def fsC5 : String → FSEntry :=
  fun p => if p == "src" then FSEntry.dir [protoFile, mainFile] else FSEntry.other

/-- A small definitions table for witnesses. -/
def d0 : Defs := [("f", [("a.c", 1)]), ("main", [("a.c", 3)])]

/-- A small call set for witnesses. -/
def c0 : Finset String := {"g"}

example : find_function_definitions_in_content "proto.h" ("int forward_decl(void);\n".data)
  = [] := by decide
example : (scan_inputs fsC5 ["src"]).1 = [("main", [("main.c", 1)])] := by decide
example : (scan_inputs fsC5 ["src"]).2 = {"forward_decl"} := by decide
example : "f" ∉ c0 := by decide
example : "f" ∉ EXCLUDED_SET := by decide
example : computeUndefined (scan_inputs fsC5 ["src"]).1 (scan_inputs fsC5 ["src"]).2
  = {"forward_decl"} := by decide
example : computeUnused d0 c0 = [("f", [("a.c", 1)])] := by decide

/-! ## Sanity evaluations

Concrete runs of the embedded matchers, each checked against the behaviour of
the original program's regexes on the same input. -/

example : remove_comments ("/* a\nb */x".data) = "x".data := by decide
example : remove_comments ("/* x".data) = "/* x".data := by decide
example : remove_comments ("//*c*/* d */".data) = "/* d */".data := by decide
example : remove_comments ("s = \"a//b\";".data) = "s = \"a".data := by decide

example : scanDefs ("x\nif fn (y) \x7b".data) = [⟨"fn".data, 0, 5, 12⟩] := by decide
example : scanDefs ("int\nif (x) \x7b".data) = [⟨"if".data, 0, 4, 11⟩] := by decide
example : scanDefs ("int forward_decl(void);\n".data) = [] := by decide
example : scanDefs ("int f(a) (b) \x7b".data) = [⟨"f".data, 0, 4, 13⟩] := by decide
example : scanDefs ("int f() \x7b int g() \x7b \x7d".data) = [⟨"f".data, 0, 4, 18⟩] := by decide
example : scanDefs ("int *g(void) \x7b".data) = [⟨"g".data, 0, 5, 13⟩] := by decide
example : scanDefs ("int* g(void) \x7b".data) = [] := by decide
example : scanDefs ("   if (x) \x7b".data) = [] := by decide
example : scanDefs ("\nint f() \x7b".data) = [⟨"f".data, 0, 5, 9⟩] := by decide
example : defExcised ("int main(void) \x7b forward_decl(); \x7d\n".data)
  = "\x7b forward_decl(); \x7d\n".data := by decide

example : (callScan "9foo( foobar( do( double( mainly( x(".data).map String.mk
  = ["foobar", "mainly", "x"] := by decide
example : (callScan "a(b(c(".data).map String.mk = ["a", "b", "c"] := by decide

/-! ## Generic helpers -/

theorem findSome?_eq_some_exists {α β : Type} {f : α → Option β} :
    ∀ {l : List α} {b : β}, l.findSome? f = some b → ∃ a, a ∈ l ∧ f a = some b := by
  intro l
  induction l with
  | nil => intro b h; simp [List.findSome?] at h
  | cons a l ih =>
    intro b h
    rw [List.findSome?] at h
    cases hfa : f a with
    | some b' =>
      rw [hfa] at h
      exact ⟨a, List.mem_cons_self a l, by rw [hfa]; exact h⟩
    | none =>
      rw [hfa] at h
      obtain ⟨x, hx, hfx⟩ := ih h
      exact ⟨x, List.mem_cons_of_mem a hx, hfx⟩

/-! ## Comment-stripper lemmas -/

/-- If `*` never immediately precedes `/` in `l`, there is no closer. -/
theorem dropToClose_none_of_no_close :
    ∀ (l : List Char), occurs2 '*' '/' l = false → dropToClose l = none := by
  intro l
  induction l with
  | nil => intro _; rfl
  | cons c rest ih =>
    intro h
    simp only [occurs2, Bool.or_eq_false_iff] at h
    rw [dropToClose, if_neg]
    · exact ih h.2
    · intro ⟨hc, hh⟩
      subst hc
      simp [hh] at h

theorem skipToNl_length_le : ∀ (l : List Char), (skipToNl l).length ≤ l.length := by
  intro l
  induction l with
  | nil => simp [skipToNl]
  | cons c rest ih =>
    rw [skipToNl]
    split
    · exact Nat.le_refl _
    · exact Nat.le_trans ih (Nat.le_succ _)

/-- `occurs2 _ _` being false is inherited by the tail. -/
theorem occurs2_tail_false {a b : Char} {l : List Char} (h : occurs2 a b l = false) :
    occurs2 a b l.tail = false := by
  cases l with
  | nil => exact h
  | cons c r =>
    simp only [occurs2, Bool.or_eq_false_iff] at h
    exact h.2

/-- If no `/*` occurs, the block pass copies everything. -/
theorem blockStripF_id_of_no_opener :
    ∀ (fuel : Nat) (l : List Char), l.length ≤ fuel →
      occurs2 '/' '*' l = false → blockStripF fuel l = l := by
  intro fuel
  induction fuel with
  | zero =>
    intro l hl _
    cases l with
    | nil => rfl
    | cons c r => simp at hl
  | succ fuel ih =>
    intro l hl h
    cases l with
    | nil => rfl
    | cons c rest =>
      simp only [occurs2, Bool.or_eq_false_iff] at h
      rw [blockStripF, if_neg]
      · rw [ih rest (by simpa using hl) h.2]
      · intro ⟨hc, hh⟩
        subst hc
        simp [hh] at h

/-- If no `*/` occurs, the block pass never removes anything. -/
theorem blockStripF_id_of_no_close :
    ∀ (fuel : Nat) (l : List Char), l.length ≤ fuel →
      occurs2 '*' '/' l = false → blockStripF fuel l = l := by
  intro fuel
  induction fuel with
  | zero =>
    intro l hl _
    cases l with
    | nil => rfl
    | cons c r => simp at hl
  | succ fuel ih =>
    intro l hl h
    cases l with
    | nil => rfl
    | cons c rest =>
      have hrest : occurs2 '*' '/' rest = false := by
        simp only [occurs2, Bool.or_eq_false_iff] at h
        exact h.2
      have hlen : rest.length ≤ fuel := by simpa using hl
      rw [blockStripF]
      split
      · rw [dropToClose_none_of_no_close rest.tail (occurs2_tail_false hrest)]
        rw [ih rest hlen hrest]
      · rw [ih rest hlen hrest]

/-- The line pass never leaves a `//` in its output: every emitted `/` is
followed either by nothing, a non-`/` character, or the newline at which a
removed comment ended. -/
theorem lineStripF_no_dslash :
    ∀ (fuel : Nat) (l : List Char), l.length ≤ fuel →
      occurs2 '/' '/' (lineStripF fuel l) = false := by
  intro fuel
  induction fuel with
  | zero =>
    intro l hl
    cases l with
    | nil => rfl
    | cons c r => simp at hl
  | succ fuel ih =>
    intro l hl
    cases l with
    | nil => rfl
    | cons c rest =>
      have hlen : rest.length ≤ fuel := by simpa using hl
      rw [lineStripF]
      split
      · rename_i hc
        exact ih (skipToNl rest.tail) (Nat.le_trans (skipToNl_length_le rest.tail)
          (Nat.le_trans (by cases rest <;> simp) hlen))
      · rename_i hc
        simp only [occurs2, Bool.or_eq_false_iff]
        refine ⟨?_, ih rest hlen⟩
        by_cases hcs : c = '/'
        · subst hcs
          have hrh : rest.head? ≠ some '/' := fun hh => hc ⟨rfl, hh⟩
          cases rest with
          | nil => simp [lineStripF]
          | cons d r2 =>
            have hd : d ≠ '/' := by simpa using hrh
            cases fuel with
            | zero => simp at hlen
            | succ f =>
              rw [lineStripF, if_neg]
              · simp [hd]
              · intro ⟨hd2, _⟩
                exact hd hd2
        · simp [hcs]

/-- The line pass is the identity on text with no `//`. -/
theorem lineStripF_id_of_no_dslash :
    ∀ (fuel : Nat) (l : List Char), l.length ≤ fuel →
      occurs2 '/' '/' l = false → lineStripF fuel l = l := by
  intro fuel
  induction fuel with
  | zero =>
    intro l hl _
    cases l with
    | nil => rfl
    | cons c r => simp at hl
  | succ fuel ih =>
    intro l hl h
    cases l with
    | nil => rfl
    | cons c rest =>
      simp only [occurs2, Bool.or_eq_false_iff] at h
      rw [lineStripF, if_neg]
      · rw [ih rest (by simpa using hl) h.2]
      · intro ⟨hc, hh⟩
        subst hc
        simp [hh] at h

/-! ## Definition-matcher lemmas -/

/-- A successful `[^;]*\)\s*(?=\{)` match ends just before a `{`. -/
theorem paramSearch_spec {l : List Char} {e : Nat} (h : paramSearch l = some e) :
    (l.drop e).head? = some lbrace := by
  unfold paramSearch at h
  obtain ⟨j, _, hfj⟩ := findSome?_eq_some_exists h
  simp only at hfj
  split at hfj
  · rename_i c hh
    split at hfj
    · rename_i hc
      rw [Option.some.injEq] at hfj
      subst hfj
      rw [beq_iff_eq] at hc
      subst hc
      rw [List.drop_drop] at hh
      convert hh using 4
    · cases hfj
  · cases hfj

/-- A successful tail match consumes at least one character and ends just
before a `{`. -/
theorem tryTail_spec {l : List Char} {wsN o ns nm e : Nat}
    (h : tryTail l wsN o = some (ns, nm, e)) :
    1 ≤ e ∧ (l.drop e).head? = some lbrace := by
  simp only [tryTail] at h
  split at h
  · cases h
  · rename_i hm
    split at h
    · rename_i c hc
      split at h
      · rename_i hcp
        split at h
        · rename_i e6 hps
          rw [Option.some.injEq, Prod.mk.injEq, Prod.mk.injEq] at h
          obtain ⟨h1, h2, h3⟩ := h
          refine ⟨by omega, ?_⟩
          have hps2 := paramSearch_spec hps
          simp only [List.drop_drop] at hps2 h3
          rw [← h3]
          convert hps2 using 4
        · cases h
      · cases h
    · cases h

/-- A successful definition-pattern attempt consumes at least one character,
ends just before a `{`, and its first non-whitespace token is not an excluded
keyword. -/
theorem tryDefMatch_spec {l : List Char} {ns nm e : Nat}
    (h : tryDefMatch l = some (ns, nm, e)) :
    1 ≤ e ∧ (l.drop e).head? = some lbrace
      ∧ kwLookahead (l.drop (countWs l)) = false := by
  simp only [tryDefMatch] at h
  split at h
  · cases h
  · rename_i hkw
    obtain ⟨o, _, ho⟩ := findSome?_eq_some_exists h
    obtain ⟨h1, h2⟩ := tryTail_spec ho
    exact ⟨h1, h2, by simpa using hkw⟩

/-- Unfolding equation of `scanDefsF` on the empty text. -/
theorem scanDefsF_nil (fuel pos : Nat) (ls : Bool) :
    scanDefsF fuel [] pos ls = ([], []) := by
  cases fuel <;> rfl

/-- Unfolding equation of `scanDefsF` with fuel and text exposed. -/
theorem scanDefsF_succ (fuel : Nat) (c : Char) (rest : List Char) (pos : Nat) (ls : Bool) :
    scanDefsF (fuel + 1) (c :: rest) pos ls =
      if ls then
        match tryDefMatch (c :: rest) with
        | some (ns, nm, e) =>
          let r := scanDefsF fuel ((c :: rest).drop e) (pos + e) (nlBefore (c :: rest) e)
          (⟨((c :: rest).drop ns).take nm, pos, pos + ns, pos + e⟩ :: r.1, r.2)
        | none =>
          let r := scanDefsF fuel rest (pos + 1) (c == '\n')
          (r.1, c :: r.2)
      else
        let r := scanDefsF fuel rest (pos + 1) (c == '\n')
        (r.1, c :: r.2) := rfl

/-- Every recorded match comes from a successful `tryDefMatch` at its start
offset, with the match end displaced by the consumed length. -/
theorem scanDefsF_spec :
    ∀ (fuel : Nat) (l : List Char) (pos : Nat) (ls : Bool),
      l.length ≤ fuel →
      ∀ m ∈ (scanDefsF fuel l pos ls).1,
        ∃ k ns nm e, tryDefMatch (l.drop k) = some (ns, nm, e)
          ∧ m.matchStart = pos + k ∧ m.matchEnd = pos + k + e := by
  intro fuel
  induction fuel with
  | zero =>
    intro l pos ls hl m hm
    cases l with
    | nil => rw [scanDefsF_nil] at hm; simp at hm
    | cons c r => simp at hl
  | succ fuel ih =>
    intro l pos ls hl m hm
    cases l with
    | nil => rw [scanDefsF_nil] at hm; simp at hm
    | cons c rest =>
      rw [scanDefsF_succ] at hm
      split at hm
      · split at hm
        · rename_i ns nm e heq
          obtain ⟨hE, -, -⟩ := tryDefMatch_spec heq
          simp only [List.mem_cons] at hm
          cases hm with
          | inl hm =>
            subst hm
            exact ⟨0, ns, nm, e, by simpa using heq, by simp, by simp⟩
          | inr hm =>
            obtain ⟨k2, ns2, nm2, e2, h2, hs2, he2⟩ :=
              ih ((c :: rest).drop e) (pos + e) (nlBefore (c :: rest) e)
                (by simp only [List.length_drop]; simp at hl ⊢; omega) m hm
            rw [List.drop_drop] at h2
            exact ⟨e + k2, ns2, nm2, e2, h2, by omega, by omega⟩
        · simp only at hm
          obtain ⟨k2, ns2, nm2, e2, h2, hs2, he2⟩ :=
            ih rest (pos + 1) (c == '\n') (by simpa using hl) m hm
          refine ⟨k2 + 1, ns2, nm2, e2, ?_, by omega, by omega⟩
          rw [List.drop_succ_cons]
          exact h2
      · simp only at hm
        obtain ⟨k2, ns2, nm2, e2, h2, hs2, he2⟩ :=
          ih rest (pos + 1) (c == '\n') (by simpa using hl) m hm
        refine ⟨k2 + 1, ns2, nm2, e2, ?_, by omega, by omega⟩
        rw [List.drop_succ_cons]
        exact h2

/-- Every match of the definition pattern ends just before a `{`, and its
start position's first non-whitespace token is not an excluded keyword. -/
theorem scanDefs_spec (t : List Char) (m : DefMatch) (hm : m ∈ scanDefs t) :
    (t.drop m.matchEnd).head? = some lbrace
    ∧ kwLookahead ((t.drop m.matchStart).drop (countWs (t.drop m.matchStart))) = false := by
  obtain ⟨k, ns, nm, e, h, hs, he⟩ :=
    scanDefsF_spec t.length t 0 true (Nat.le_refl _) m hm
  obtain ⟨h1, h2, h3⟩ := tryDefMatch_spec h
  rw [List.drop_drop] at h2
  constructor
  · rw [show m.matchEnd = k + e by omega]
    exact h2
  · rw [show m.matchStart = k by omega]
    exact h3

/-! ## Call-matcher lemmas -/

/-- Unfolding equation of `callScanF` on the empty text. -/
theorem callScanF_nil (fuel : Nat) (b : Bool) : callScanF fuel [] b = [] := by
  cases fuel <;> rfl

/-- Unfolding equation of `callScanF` with fuel and text exposed. -/
theorem callScanF_succ (fuel : Nat) (c : Char) (rest : List Char) (prevW : Bool) :
    callScanF (fuel + 1) (c :: rest) prevW =
      if !prevW && isIdentStart c && !excludedAt (c :: rest)
          && parenAfterIdent (c :: rest) then
        (c :: rest).take (identLen (c :: rest))
          :: callScanF fuel
              ((c :: rest).drop
                (identLen (c :: rest) + countWs ((c :: rest).drop (identLen (c :: rest))) + 1))
              false
      else callScanF fuel rest (isWordChar c) := rfl

/-- Unfolding equation of `hasCallShapeAux`. -/
theorem hasCallShapeAux_cons (c : Char) (rest : List Char) (prevW : Bool) :
    hasCallShapeAux (c :: rest) prevW =
      ((!prevW && isIdentStart c && parenAfterIdent (c :: rest))
        || hasCallShapeAux rest (isWordChar c)) := rfl

/-- If the text has no identifier-followed-by-`(` occurrence, the call matcher
finds nothing. -/
theorem callScanF_nil_of_no_shape :
    ∀ (fuel : Nat) (l : List Char) (prevW : Bool), l.length ≤ fuel →
      hasCallShapeAux l prevW = false → callScanF fuel l prevW = [] := by
  intro fuel
  induction fuel with
  | zero =>
    intro l prevW hl _
    cases l with
    | nil => rfl
    | cons c r => simp at hl
  | succ fuel ih =>
    intro l prevW hl h
    cases l with
    | nil => exact callScanF_nil _ _
    | cons c rest =>
      rw [hasCallShapeAux_cons, Bool.or_eq_false_iff] at h
      obtain ⟨h1, h2⟩ := h
      rw [callScanF_succ, if_neg]
      · exact ih rest (isWordChar c) (by simpa using hl) h2
      · intro hA
        simp only [Bool.and_eq_true] at hA
        obtain ⟨⟨⟨hp, hi⟩, -⟩, hpar⟩ := hA
        simp [hp, hi, hpar] at h1

/-! ## Aggregation lemmas -/

theorem lookupDefs_nil_of_not_any {d : Defs} {n : String}
    (h : d.any (fun p => p.1 == n) = false) : lookupDefs d n = [] := by
  induction d with
  | nil => rfl
  | cons p rest ih =>
    simp only [List.any_cons, Bool.or_eq_false_iff] at h
    rw [lookupDefs, if_neg (by simp [h.1]), ih h.2]

theorem lookupDefs_append (d1 d2 : Defs) (n : String) :
    lookupDefs (d1 ++ d2) n
      = if d1.any (fun p => p.1 == n) then lookupDefs d1 n else lookupDefs d2 n := by
  induction d1 with
  | nil => simp [lookupDefs]
  | cons p rest ih =>
    by_cases hpn : p.1 = n
    · simp [lookupDefs, hpn]
    · have hb : (p.1 == n) = false := by simp [hpn]
      simp [lookupDefs, hpn, ih, hb, Bool.or_eq_true]
      rw [hb, Bool.false_or]

theorem lookupDefs_map_upd (d : Defs) (k n : String) (v : List (String × Nat)) :
    lookupDefs (d.map (fun p => if p.1 == k then (p.1, p.2 ++ v) else p)) n
      = if n = k ∧ d.any (fun p => p.1 == n) = true then lookupDefs d n ++ v
        else lookupDefs d n := by
  induction d with
  | nil => simp [lookupDefs]
  | cons p rest ih =>
    simp only [beq_iff_eq] at ih
    by_cases hpk : p.1 = k
    · by_cases hpn : p.1 = n
      · have hnk : n = k := by rw [← hpn, hpk]
        simp [lookupDefs, hpk, hpn, hnk, beq_iff_eq]
      · have hnk : ¬(n = k) := fun h => hpn (by rw [hpk, ← h])
        have hkn : ¬(k = n) := fun h => hnk h.symm
        have hb : (p.1 == n) = false := by simp [hpn]
        simp [lookupDefs, hpk, hpn, hnk, hkn, ih, hb, beq_iff_eq, Bool.or_eq_true]
    · by_cases hpn : p.1 = n
      · have hnk : ¬(n = k) := fun h => hpk (by rw [hpn, h])
        simp [lookupDefs, hpk, hpn, hnk, beq_iff_eq]
      · have hb : (p.1 == n) = false := by simp [hpn]
        simp [lookupDefs, hpk, hpn, ih, hb, beq_iff_eq, Bool.or_eq_true]
        rw [hb, Bool.false_or]

theorem lookupDefs_dictExtend (d : Defs) (k n : String) (v : List (String × Nat)) :
    lookupDefs (dictExtend d k v) n
      = lookupDefs d n ++ (if k == n then v else []) := by
  unfold dictExtend
  by_cases hk : d.any (fun p => p.1 == k) = true
  · rw [if_pos hk, lookupDefs_map_upd]
    by_cases hnk : n = k
    · subst hnk
      simp [hk]
    · have hkn : ¬(k = n) := fun h => hnk h.symm
      simp [hnk, hkn]
  · rw [if_neg hk, lookupDefs_append]
    rw [Bool.not_eq_true] at hk
    by_cases hnk : n = k
    · subst hnk
      rw [if_neg (by simp [hk]), lookupDefs_nil_of_not_any hk]
      simp [lookupDefs]
    · have hkn : ¬(k = n) := fun h => hnk h.symm
      by_cases hdn : d.any (fun p => p.1 == n) = true
      · rw [if_pos hdn]
        simp [hkn]
      · have hd0 : lookupDefs d n = [] :=
          lookupDefs_nil_of_not_any (by rwa [Bool.not_eq_true] at hdn)
        rw [if_neg hdn, hd0]
        simp [lookupDefs, hkn]

theorem lookupDefs_foldl_dictExtend (entries : Defs) :
    ∀ (d : Defs) (n : String),
      lookupDefs (entries.foldl (fun a p => dictExtend a p.1 p.2) d) n
        = lookupDefs d n ++ contribLocs entries n := by
  induction entries with
  | nil => intro d n; simp [contribLocs]
  | cons p rest ih =>
    intro d n
    rw [List.foldl_cons, ih, lookupDefs_dictExtend, contribLocs, List.append_assoc]

/-! ## Cross-referencer lemmas -/

theorem mem_defKeys_iff (d : Defs) (n : String) :
    n ∈ defKeys d ↔ ∃ p ∈ d, p.1 = n := by
  simp [defKeys, List.mem_map]

theorem defKeys_perm {d1 d2 : Defs} (h : d1.Perm d2) : defKeys d1 = defKeys d2 := by
  apply Finset.ext
  intro x
  simp [defKeys, (h.map Prod.fst).mem_iff]

theorem lookupDefs_filter (q : String × List (String × Nat) → Bool) (d : Defs)
    (n : String) (hq : ∀ p : String × List (String × Nat), p.1 = n → q p = true) :
    lookupDefs (d.filter q) n = lookupDefs d n := by
  induction d with
  | nil => rfl
  | cons p rest ih =>
    by_cases hpn : p.1 = n
    · simp [List.filter_cons, hq p hpn, lookupDefs, hpn]
    · by_cases hqp : q p = true
      · simp [List.filter_cons, hqp, lookupDefs, hpn, ih]
      · simp [List.filter_cons, hqp, lookupDefs, hpn, ih]

theorem mem_defKeys_computeUnused (d : Defs) (calls : Finset String) (n : String) :
    n ∈ defKeys (computeUnused d calls)
      ↔ n ∈ defKeys d ∧ n ∉ calls ∧ n ∉ EXCLUDED_SET := by
  simp only [mem_defKeys_iff, computeUnused, List.mem_filter]
  constructor
  · rintro ⟨p, ⟨hp, hq⟩, hn⟩
    subst hn
    simp only [Bool.and_eq_true, decide_eq_true_eq] at hq
    exact ⟨⟨p, hp, rfl⟩, hq.1, hq.2⟩
  · rintro ⟨⟨p, hp, hn⟩, h1, h2⟩
    subst hn
    exact ⟨p, ⟨hp, by simp [h1, h2]⟩, rfl⟩

/-! ## Claim theorems -/

/-- C1: for every definitions mapping and call set, the cross-referencer
satisfies the set identities: a name is in `unused` iff it is a defined name
outside the call set and the keyword exclusion set; `unused` keeps that name's
full location list from the definitions; `undefined` is the call set minus the
defined names minus the exclusion set; and both results are pure functions of
the two inputs whose content is unchanged under any reordering (permutation)
of the definitions table — iteration order does not matter. -/
theorem c1_cross_referencer_identities (definitions definitions' : Defs)
    (calls : Finset String) (name : String) :
    (name ∈ defKeys (computeUnused definitions calls)
      ↔ name ∈ defKeys definitions ∧ name ∉ calls ∧ name ∉ EXCLUDED_SET)
    ∧ (name ∉ calls → name ∉ EXCLUDED_SET →
        lookupDefs (computeUnused definitions calls) name
          = lookupDefs definitions name)
    ∧ (name ∈ computeUndefined definitions calls
      ↔ name ∈ calls ∧ name ∉ defKeys definitions ∧ name ∉ EXCLUDED_SET)
    ∧ (definitions.Perm definitions' →
        (computeUnused definitions calls).Perm (computeUnused definitions' calls)
        ∧ computeUndefined definitions calls
            = computeUndefined definitions' calls) := by
  refine ⟨mem_defKeys_computeUnused _ _ _, ?_, ?_, ?_⟩
  · intro h1 h2
    apply lookupDefs_filter
    intro p hp
    simp [hp, h1, h2]
  · simp only [computeUndefined, Finset.mem_sdiff]
    tauto
  · intro hperm
    refine ⟨hperm.filter _, ?_⟩
    rw [computeUndefined, computeUndefined, defKeys_perm hperm]

/-- Witness for C1 at a concrete table and call set. -/
theorem c1_cross_referencer_identities_witness :
    lookupDefs (computeUnused d0 c0) "f" = lookupDefs d0 "f"
    ∧ (computeUnused d0 c0).Perm (computeUnused d0.reverse c0) :=
  ⟨(c1_cross_referencer_identities d0 d0.reverse c0 "f").2.1 (by decide) (by decide),
   ((c1_cross_referencer_identities d0 d0.reverse c0 "f").2.2.2
     (d0.reverse_perm.symm)).1⟩

/-- C2 (code bug): `remove_comments` replaces a multi-line block comment by
the empty string, so the newline inside it is deleted and the output has
fewer lines than the input, while the claim requires the line count to be
preserved (and downstream line numbers are computed on the stripped text). -/
theorem c2_block_comment_newlines_lost :
    remove_comments ("/* a\nb */x".data) = "x".data
    ∧ countNl ("/* a\nb */x".data) = 1
    ∧ countNl (remove_comments ("/* a\nb */x".data)) = 0 := by decide

/-- C3 counterexample: on `"/* x"` — an opener with no closer — the stripper
removes nothing (the opener is still present in the output), rather than
removing everything from the opener to the end of file, which would leave the
empty text. -/
theorem c3_unterminated_counterexample :
    remove_comments ("/* x".data) = "/* x".data
    ∧ occurs2 '/' '*' (remove_comments ("/* x".data)) = true
    ∧ "/* x".data ≠ ([] : List Char) := by decide

/-- C3 amended: when no closer `*/` occurs anywhere in the text, the block
pass removes nothing at all — an unterminated block comment is left in place
(only line comments are stripped); it is NOT consumed to end of file. -/
theorem c3_unterminated_left_in_place (t : List Char)
    (h : occurs2 '*' '/' t = false) :
    blockStrip t = t ∧ remove_comments t = lineStrip t := by
  have hb : blockStrip t = t :=
    blockStripF_id_of_no_close t.length t (Nat.le_refl _) h
  refine ⟨hb, ?_⟩
  show lineStrip (blockStrip t) = lineStrip t
  rw [hb]

/-- Witness for C3 amended at the unterminated input. -/
theorem c3_unterminated_witness :
    occurs2 '*' '/' ("/* x".data) = false
    ∧ blockStrip ("/* x".data) = "/* x".data
    ∧ remove_comments ("/* x".data) = lineStrip ("/* x".data) :=
  ⟨by decide, (c3_unterminated_left_in_place _ (by decide)).1,
   (c3_unterminated_left_in_place _ (by decide)).2⟩

/-- C4 counterexample: stripping `"//*c*/* d */"` once yields `"/* d */"`
(removing `/*c*/` juxtaposes a new block comment), and stripping that again
yields the empty text — `remove_comments` is not idempotent. -/
theorem c4_not_idempotent_counterexample :
    remove_comments ("//*c*/* d */".data) = "/* d */".data
    ∧ remove_comments (remove_comments ("//*c*/* d */".data))
        ≠ remove_comments ("//*c*/* d */".data) := by decide

/-- C4 amended: stripping is idempotent on every input whose stripped output
contains no block-comment opener `/*`; in general the removal of a comment
can juxtapose the characters of a new `/*`, and idempotence fails. -/
theorem c4_idempotent_unless_new_opener (t : List Char)
    (h : occurs2 '/' '*' (remove_comments t) = false) :
    remove_comments (remove_comments t) = remove_comments t := by
  have hnd : occurs2 '/' '/' (remove_comments t) = false :=
    lineStripF_no_dslash (blockStrip t).length (blockStrip t) (Nat.le_refl _)
  show lineStrip (blockStrip (remove_comments t)) = remove_comments t
  rw [show blockStrip (remove_comments t) = remove_comments t from
    blockStripF_id_of_no_opener (remove_comments t).length (remove_comments t)
      (Nat.le_refl _) h]
  exact lineStripF_id_of_no_dslash (remove_comments t).length (remove_comments t)
    (Nat.le_refl _) hnd

/-- Witness for C4 amended on a line-comment input. -/
theorem c4_idempotent_witness :
    occurs2 '/' '*' (remove_comments ("a // b\n".data)) = false
    ∧ remove_comments (remove_comments ("a // b\n".data))
        = remove_comments ("a // b\n".data) :=
  ⟨by decide, c4_idempotent_unless_new_opener _ (by decide)⟩

/-- C5: every match of the Definition Matcher ends immediately before a `{`
(a signature counts as a definition only when a brace follows), so a
prototype-only line is never captured: the prototype file yields no
definitions, and scanning the two-file project (prototype + a caller) puts
`forward_decl` in the undefined set. -/
theorem c5_prototype_never_definition :
    (∀ (t : List Char), ∀ m ∈ scanDefs t, (t.drop m.matchEnd).head? = some lbrace)
    ∧ find_function_definitions_in_content "proto.h"
        ("int forward_decl(void);\n".data) = []
    ∧ computeUndefined (scan_inputs fsC5 ["src"]).1 (scan_inputs fsC5 ["src"]).2
        = {"forward_decl"} :=
  ⟨fun t m hm => (scanDefs_spec t m hm).1, by decide, by decide⟩

/-- Witness for C5's brace property at a concrete match. -/
theorem c5_prototype_witness :
    (("int f(void) \x7b".data).drop 12).head? = some lbrace :=
  c5_prototype_never_definition.1 ("int f(void) \x7b".data)
    ⟨"f".data, 0, 4, 12⟩ (by decide)

/-- C6 counterexample: in `"x\nif fn (y) {"` the Definition Matcher captures
`fn`, whose occurrence lies on line 2, a line whose leading token is the
control keyword `if` — the match began at line 1, where the keyword lookahead
was evaluated, and its whitespace crossed the newline. -/
theorem c6_keyword_line_counterexample :
    scanDefs ("x\nif fn (y) \x7b".data) = [⟨"fn".data, 0, 5, 12⟩]
    ∧ lineNumberOf ("x\nif fn (y) \x7b".data) 5 = 2
    ∧ lineLeadingKw ("x\nif fn (y) \x7b".data) 5 = true := by decide

/-- C6 amended: no match of the Definition Matcher STARTS at a position whose
first non-whitespace token is a control keyword; but because the return-type
clause's whitespace may span newlines, a name on a keyword-led line can still
be captured by a match that began on an earlier line. -/
theorem c6_no_match_starts_at_keyword (t : List Char) :
    ∀ m ∈ scanDefs t,
      kwLookahead ((t.drop m.matchStart).drop (countWs (t.drop m.matchStart)))
        = false :=
  fun m hm => (scanDefs_spec t m hm).2

/-- Witness for C6 amended at a concrete match. -/
theorem c6_no_match_starts_at_keyword_witness :
    kwLookahead ((("void g(void) \x7b".data).drop 0).drop
      (countWs (("void g(void) \x7b".data).drop 0))) = false :=
  c6_no_match_starts_at_keyword ("void g(void) \x7b".data)
    ⟨"g".data, 0, 5, 13⟩ (by decide)

/-- C7: if the comment-stripped text with definition signatures excised has no
identifier-followed-by-`(` occurrence (as in a file holding one definition
whose body contains no call), the Call Matcher returns the empty set: a
definition's own name+paren is never counted as a call to itself. -/
theorem c7_no_self_call (t : List Char)
    (h : hasCallShape (defExcised (remove_comments t)) = false) :
    find_function_calls_in_content t = ∅ := by
  unfold find_function_calls_in_content
  rw [show callScan (defExcised (remove_comments t)) = [] from
    callScanF_nil_of_no_shape _ _ false (Nat.le_refl _) h]
  simp

/-- Witness for C7 at Scenario 1's single-definition file. -/
theorem c7_no_self_call_witness :
    hasCallShape (defExcised (remove_comments
        ("int add(int a, int b) \x7b return a + b; \x7d".data))) = false
    ∧ find_function_calls_in_content
        ("int add(int a, int b) \x7b return a + b; \x7d".data) = ∅ :=
  ⟨by decide, c7_no_self_call _ (by decide)⟩

/-- C8: scanning the path list `[A, B]` and the list `[B, A]` produce the same
call set and, for every name, the same multiset of definition locations — the
aggregation performed by `scan_inputs` is order-independent in content (the
location lists are concatenated in visitation order, so only their order can
differ). -/
theorem c8_scan_order_independent (fs : String → FSEntry) (A B : String) :
    (scan_inputs fs [A, B]).2 = (scan_inputs fs [B, A]).2
    ∧ ∀ name,
        (lookupDefs (scan_inputs fs [A, B]).1 name : Multiset (String × Nat))
          = (lookupDefs (scan_inputs fs [B, A]).1 name : Multiset (String × Nat)) := by
  constructor
  · show ((∅ ∪ (scan_path fs A).2) ∪ (scan_path fs B).2)
      = ((∅ ∪ (scan_path fs B).2) ∪ (scan_path fs A).2)
    rw [Finset.empty_union, Finset.empty_union, Finset.union_comm]
  · intro name
    show (lookupDefs ((scan_path fs B).1.foldl (fun a p => dictExtend a p.1 p.2)
        ((scan_path fs A).1.foldl (fun a p => dictExtend a p.1 p.2) [])) name
          : Multiset (String × Nat))
      = (lookupDefs ((scan_path fs A).1.foldl (fun a p => dictExtend a p.1 p.2)
        ((scan_path fs B).1.foldl (fun a p => dictExtend a p.1 p.2) [])) name
          : Multiset (String × Nat))
    rw [lookupDefs_foldl_dictExtend, lookupDefs_foldl_dictExtend,
      lookupDefs_foldl_dictExtend, lookupDefs_foldl_dictExtend]
    simp only [lookupDefs, List.nil_append]
    rw [← Multiset.coe_add, ← Multiset.coe_add, add_comm]

/-- C9: a file whose read fails contributes an empty definition list and an
empty call set, and the scan of the remaining files is unaffected: scanning
with the failing file present equals scanning without it (the per-file error
report is console output, outside the model). -/
theorem c9_read_failure_isolated (filepath : String)
    (pre post : List (String × Option (List Char))) :
    find_function_definitions_in_file filepath none = []
    ∧ find_function_calls_in_file none = ∅
    ∧ scan_files (pre ++ (filepath, none) :: post) = scan_files (pre ++ post) := by
  refine ⟨rfl, rfl, ?_⟩
  unfold scan_files
  rw [List.foldl_append, List.foldl_append, List.foldl_cons]
  congr 1
  split
  · simp [find_function_definitions_in_file, find_function_calls_in_file,
      find_function_definitions_in_content]
  · rfl

/-- C10: the Comment Stripper does not recognize C string literals: the
comment-free line `s = "a//b";` comes back with the characters from `//`
onwards deleted, including those inside the double-quoted literal. -/
theorem c10_string_literal_not_respected :
    remove_comments ("s = \"a//b\";".data) = "s = \"a".data
    ∧ remove_comments ("s = \"a//b\";".data) ≠ "s = \"a//b\";".data := by decide
